import Mathlib

/-!
Verification of the hall-availability data layer of this repository
(the fetch–transform–reconcile pipeline in the Google-Sheets service module:
`getSheetDetails`, `fetchWithTimeout`, `fetchWithRetry`, `processSlot`,
`addFallbackIfNeeded`, `processData`, `fetchHallData`).

The TypeScript code is shallowly embedded:
* machine integers become `Nat` / `Int` (no overflow is relevant here);
* a fetch attempt against the remote store is an oracle
  `String → Nat → AttemptOutcome` giving, for each requested range string and
  each attempt index, either a transport-level exception (which includes the
  timeout case — `AbortController` aborts surface as thrown exceptions) or an
  HTTP response carrying a status code and an optional parsed `values` body;
* the shared mutable `allResults` array becomes an explicitly threaded list;
* `async`/`await` structure is modelled separately as a small shape tree
  (`AsyncShape`) recording which awaits are sequential and which operations
  are started together (`Promise.all`).
-/

namespace HallGMK

/-- Model of the `'Morning' | 'Evening'` time-slot literal type. -/
inductive TimeSlot where
  | Morning : TimeSlot
  | Evening : TimeSlot
deriving DecidableEq, Repr, Fintype

/-- Model of the `'Available' | 'Booked'` status literal type. -/
inductive Status where
  | Available : Status
  | Booked : Status
deriving DecidableEq, Repr

/-- The `HallData` interface: one (date, location, hall, slot) → status record. -/
structure HallData where
  date : String
  location : String
  hallName : String
  timeSlot : TimeSlot
  status : Status
deriving DecidableEq, Repr

/-- The `Hall` interface: name, morning/evening range references, header offsets.
The optional offsets are read through `|| 0` in the code, so they are plain `Nat`s. -/
structure HallConfig where
  name : String
  morningRange : String
  eveningRange : String
  morningHeaderOffset : Nat
  eveningHeaderOffset : Nat
deriving DecidableEq, Repr

/-- The `LocationConfig` interface. -/
structure LocationConfig where
  sheetId : String
  halls : List HallConfig
deriving DecidableEq, Repr

/-- The `SPREADSHEET_ID` constant: the combined spreadsheet holding both locations. -/
def SPREADSHEET_ID : String := "1pMiOb9hvvUdvuK0Hxt0Pa1lBF2JdYCvPZ6WdHxZPegk"

/-- The `'GMK Banquets Tathawade'` entry of the `LOCATIONS` record. -/
def tathawadeConfig : LocationConfig :=
  { sheetId := SPREADSHEET_ID
    halls :=
      [ { name := "Aster", morningRange := "B4:B33", eveningRange := "C4:C33"
          morningHeaderOffset := 0, eveningHeaderOffset := 0 }
      , { name := "Grand", morningRange := "D4:D33", eveningRange := "E4:E33"
          morningHeaderOffset := 0, eveningHeaderOffset := 0 }
      , { name := "Tulip", morningRange := "F4:F33", eveningRange := "G4:G33"
          morningHeaderOffset := 0, eveningHeaderOffset := 0 }
      , { name := "Lotus", morningRange := "H4:H33", eveningRange := "I4:I33"
          morningHeaderOffset := 0, eveningHeaderOffset := 0 } ] }

/-- The `'GMK Banquets Ravet'` entry of the `LOCATIONS` record. -/
def ravetConfig : LocationConfig :=
  { sheetId := SPREADSHEET_ID
    halls :=
      [ { name := "Agastya", morningRange := "L4:L33", eveningRange := "M4:M33"
          morningHeaderOffset := 0, eveningHeaderOffset := 0 }
      , { name := "Vyas", morningRange := "N4:N33", eveningRange := "O4:O33"
          morningHeaderOffset := 0, eveningHeaderOffset := 0 }
      , { name := "Lawn", morningRange := "P4:P33", eveningRange := "Q4:Q33"
          morningHeaderOffset := 0, eveningHeaderOffset := 0 } ] }

/-- The static `LOCATIONS` record, in object-literal insertion order
(`Object.entries` iterates string keys in insertion order). -/
def LOCATIONS : List (String × LocationConfig) :=
  [ ("GMK Banquets Tathawade", tathawadeConfig)
  , ("GMK Banquets Ravet", ravetConfig) ]

/-! ### Date model

`selectedDate` is a JS `Date`; the code only consults `getFullYear`,
`getMonth` (0-based) and `getDate` (1-based day of month).  A real `Date`
always has `month0 < 12` and a day that is in range for its month; the model
keeps the fields free so that the out-of-range guard in `fetchHallData` is a
meaningful branch. -/

structure SimpleDate where
  year : Int
  month0 : Nat
  day : Nat
deriving DecidableEq, Repr

/-- Proleptic-Gregorian leap-year rule, as implemented by the JS `Date`
object that `new Date(year, monthIndex + 1, 0)` constructs. -/
def isLeapYear (y : Int) : Bool :=
  (y % 4 == 0 && y % 100 != 0) || y % 400 == 0

/-- ECMAScript `MakeFullYear`, applied by the `Date(year, month, day)`
constructor: a year argument between 0 and 99 inclusive is remapped to
`1900 + year`.  This affects the `new Date(year, monthIndex + 1, 0)` call
that computes the month length. -/
def jsMakeFullYear (y : Int) : Int :=
  if 0 ≤ y ∧ y ≤ 99 then 1900 + y else y

/-- Model of `new Date(year, monthIndex + 1, 0).getDate()`: the number of days of
the (0-based) month `m` of year `y` as the code computes it — including the
constructor's two-digit-year remap, so for years 0–99 the February length
is that of `1900 + y` (e.g. 28 for year 0, although year 0 itself is a leap
year).  Only `m < 12` is reachable from a `Date`. -/
def daysInMonth (y : Int) (m : Nat) : Nat :=
  if m = 1 then (if isLeapYear (jsMakeFullYear y) then 29 else 28)
  else if m = 3 ∨ m = 5 ∨ m = 8 ∨ m = 10 then 30
  else 31

/-- Modelled from the spec: the number of days of month `m` of year `y` in
the proleptic Gregorian calendar itself — what "the day-of-month is valid
for its month" means for the date the caller holds (`getFullYear` is not
remapped).  Used only to state dates valid for their month against
`daysInMonth`, the length the code computes. -/
def calendarDaysInMonth (y : Int) (m : Nat) : Nat :=
  if m = 1 then (if isLeapYear y then 29 else 28)
  else if m = 3 ∨ m = 5 ∨ m = 8 ∨ m = 10 then 30
  else 31

/-- The `months` array of `getSheetDetails`. -/
def monthsAbbrev : List String :=
  ["JAN", "FEB", "MAR", "APR", "MAY", "JUN", "JUL", "AUG", "SEP", "OCT", "NOV", "DEC"]

/-- Model of `getSheetDetails(date).sheetName`, e.g. `"MAY 2025"`. -/
def sheetNameOf (d : SimpleDate) : String :=
  (monthsAbbrev.getD d.month0 "") ++ " " ++ toString d.year

/-- Model of `String(n).padStart(2, '0')` for the 1- or 2-digit numbers fed to it. -/
def padStart2 (s : String) : String :=
  if s.length ≥ 2 then s else if s.length = 1 then "0" ++ s else "00"

/-- The `formatDate` helper: `YYYY-MM-DD` normalization. -/
def formatDate (d : SimpleDate) : String :=
  toString d.year ++ "-" ++ padStart2 (toString (d.month0 + 1)) ++ "-"
    ++ padStart2 (toString d.day)

/-! ### Fetch model

A request is identified by the pre-encoding range expression
`'<sheetName>'!<range>` (the URL is that expression percent-encoded into a
fixed template with the constant spreadsheet id and API key, so the range
expression determines the request).  The remote store is an oracle mapping a
range expression and an attempt index to the outcome of that attempt. -/

/-- The `'<MONTH> <YEAR>'!<CELL_RANGE>` expression built in `processData`. -/
def rangeExpr (sheetName range : String) : String :=
  "'" ++ sheetName ++ "'!" ++ range

/-- An HTTP response as the code consumes it: `status` (whence `response.ok`)
and the parsed JSON body's optional `values : string[][]` field. -/
structure HttpResponse where
  status : Nat
  values : Option (List (List String))
deriving DecidableEq, Repr

/-- Model of `Response.ok`: status in the range 200–299. -/
def HttpResponse.isOk (r : HttpResponse) : Bool :=
  200 ≤ r.status && r.status ≤ 299

/-- Outcome of one attempt: a thrown transport-level exception (network
failure, or the 15 s `AbortController` timeout) or a settled response. -/
inductive AttemptOutcome where
  | exnThrown : AttemptOutcome
  | resp : HttpResponse → AttemptOutcome
deriving DecidableEq, Repr

/-- One remote store behaviour: per range expression, per attempt index,
the outcome of that attempt. -/
def FetchOracle : Type := String → Nat → AttemptOutcome

/-- The `const maxRetries = 3` constant. -/
def maxRetries : Nat := 3

/-- The per-attempt timeout passed to `fetchWithTimeout` (ms). -/
def fetchTimeoutMs : Nat := 15000

/-- Structural worker for `fetchWithRetry`: `remaining` is the number of
retries still allowed, i.e. `maxRetries - retryAttempt`. -/
def fetchWithRetryGo (attempts : Nat → AttemptOutcome) :
    Nat → Nat → Except Unit HttpResponse
  | 0, retryAttempt =>
      match attempts retryAttempt with
      | .resp r => .ok r
      | .exnThrown => .error ()
  | n + 1, retryAttempt =>
      match attempts retryAttempt with
      | .resp r => .ok r
      | .exnThrown => fetchWithRetryGo attempts n (retryAttempt + 1)

/-- Model of `fetchWithRetry(url, retryAttempt)`: return the attempt's response if it
settles; on a thrown exception retry while `retryAttempt < maxRetries`,
otherwise rethrow (modelled as `Except.error`). -/
def fetchWithRetry (attempts : Nat → AttemptOutcome) (retryAttempt : Nat) :
    Except Unit HttpResponse :=
  fetchWithRetryGo attempts (maxRetries - retryAttempt) retryAttempt

/-- Structural worker for `attemptsUsed`. -/
def attemptsUsedGo (attempts : Nat → AttemptOutcome) : Nat → Nat → Nat
  | 0, retryAttempt =>
      match attempts retryAttempt with
      | .resp _ => 1
      | .exnThrown => 1
  | n + 1, retryAttempt =>
      match attempts retryAttempt with
      | .resp _ => 1
      | .exnThrown => 1 + attemptsUsedGo attempts n (retryAttempt + 1)

/-- Number of attempts `fetchWithRetry` performs starting at `retryAttempt`. -/
def attemptsUsed (attempts : Nat → AttemptOutcome) (retryAttempt : Nat) : Nat :=
  attemptsUsedGo attempts (maxRetries - retryAttempt) retryAttempt

/-- The delay formula `Math.min(2000 * Math.pow(2, retryAttempt), 10000) + Math.random() * 1000`:
the backoff delay (ms) slept before the next attempt, where `rnd` models the
`Math.random()` draw (a real number in `[0, 1)`, modelled as `ℚ`). -/
def backoffDelayMs (retryAttempt : Nat) (rnd : ℚ) : ℚ :=
  min (2000 * 2 ^ retryAttempt) 10000 + rnd * 1000

/-- Structural worker for `retryDelays`. -/
def retryDelaysGo (attempts : Nat → AttemptOutcome) (rnd : Nat → ℚ) :
    Nat → Nat → List ℚ
  | 0, _ => []
  | n + 1, retryAttempt =>
      match attempts retryAttempt with
      | .resp _ => []
      | .exnThrown =>
          backoffDelayMs retryAttempt (rnd retryAttempt)
            :: retryDelaysGo attempts rnd n (retryAttempt + 1)

/-- The sequence of backoff delays actually slept by `fetchWithRetry`
starting at attempt `retryAttempt`, for random draws `rnd`. -/
def retryDelays (attempts : Nat → AttemptOutcome) (rnd : Nat → ℚ)
    (retryAttempt : Nat) : List ℚ :=
  retryDelaysGo attempts rnd (maxRetries - retryAttempt) retryAttempt

/-! ### Cell interpretation and row extraction -/

/-- Whitespace for `String.prototype.trim` (ASCII portion; the cell values
this code sees are ASCII). -/
def isJsWhitespace (c : Char) : Bool :=
  c = ' ' || c = '\t' || c = '\n' || c = '\r' || c = '\x0b' || c = '\x0c'

/-- Model of `value.trim()`: strip leading and trailing whitespace. -/
def jsTrim (s : String) : String :=
  ⟨((s.data.dropWhile isJsWhitespace).reverse.dropWhile isJsWhitespace).reverse⟩

/-- Model of `toLowerCase` on one character (ASCII portion). -/
def jsCharToLower (c : Char) : Char :=
  if 'A' ≤ c && c ≤ 'Z' then Char.ofNat (c.toNat + 32) else c

/-- Model of `value.toLowerCase()`. -/
def jsToLower (s : String) : String :=
  ⟨s.data.map jsCharToLower⟩

/-- The status decision of `processSlot(value, timeSlot)` (the enclosing
push onto `allResults` is modelled at the call sites below). -/
def processSlot (value : Option String) : Status :=
  match value with
  | none => .Booked
  | some v =>
      let cleanValue := jsToLower (jsTrim v)
      if cleanValue = "vac" ∨ cleanValue = "vacc" ∨ cleanValue = "vacant"
          ∨ cleanValue = "" then
        .Available
      else if cleanValue = "occ" ∨ cleanValue = "occupied" then
        .Booked
      else
        .Booked

/-- The cell handed to `processSlot` for a given `values` body and effective
data index: `values[idx][0]` when `values` exists, `values.length > idx` and
the row is non-empty; `undefined` otherwise. -/
def extractCell (values : Option (List (List String))) (idx : Nat) : Option String :=
  match values with
  | none => none
  | some vs =>
      match vs.get? idx with
      | none => none
      | some rowData => rowData.head?

/-! ### Per-hall processing -/

/-- Record constructor shared by the success pushes and the fallback pushes. -/
def mkRecord (dateStr location hallName : String) (timeSlot : TimeSlot)
    (status : Status) : HallData :=
  { date := dateStr, location := location, hallName := hallName
    timeSlot := timeSlot, status := status }

/-- The `addFallbackIfNeeded(slotTime)` closure from the hall-level `catch` block:
append a `Booked` record for the slot unless a record for this
(location, hall, slot, date) already exists in `allResults`. -/
def addFallbackIfNeeded (typedLocation hallName dateStr : String)
    (slotTime : TimeSlot) (allResults : List HallData) : List HallData :=
  match allResults.find? (fun r =>
      r.location == typedLocation && r.hallName == hallName
        && r.timeSlot == slotTime && r.date == dateStr) with
  | some _ => allResults
  | none =>
      allResults ++ [mkRecord dateStr typedLocation hallName slotTime .Booked]

/-- One iteration of the `for (const hall of config.halls)` loop in
`processData`: fetch the morning range with retries, then the evening range
with retries, check both `response.ok` flags, parse the bodies, and push one
Morning and one Evening record; any thrown error lands in the `catch` block,
which applies `addFallbackIfNeeded` for Morning then Evening. -/
def hallStep (oracle : FetchOracle) (sheetName dateStr typedLocation : String)
    (dayOfMonth : Nat) (hall : HallConfig) (allResults : List HallData) :
    List HallData :=
  match fetchWithRetry (oracle (rangeExpr sheetName hall.morningRange)) 0 with
  | .error _ =>
      addFallbackIfNeeded typedLocation hall.name dateStr .Evening
        (addFallbackIfNeeded typedLocation hall.name dateStr .Morning allResults)
  | .ok morningResponse =>
      match fetchWithRetry (oracle (rangeExpr sheetName hall.eveningRange)) 0 with
      | .error _ =>
          addFallbackIfNeeded typedLocation hall.name dateStr .Evening
            (addFallbackIfNeeded typedLocation hall.name dateStr .Morning allResults)
      | .ok eveningResponse =>
          if morningResponse.isOk && eveningResponse.isOk then
            let effectiveMorningDataIndex := (dayOfMonth - 1) + hall.morningHeaderOffset
            let effectiveEveningDataIndex := (dayOfMonth - 1) + hall.eveningHeaderOffset
            let afterMorning := allResults ++
              [mkRecord dateStr typedLocation hall.name .Morning
                (processSlot (extractCell morningResponse.values effectiveMorningDataIndex))]
            afterMorning ++
              [mkRecord dateStr typedLocation hall.name .Evening
                (processSlot (extractCell eveningResponse.values effectiveEveningDataIndex))]
          else
            -- `throw new Error('API request failed …')`, caught by the hall catch
            addFallbackIfNeeded typedLocation hall.name dateStr .Evening
              (addFallbackIfNeeded typedLocation hall.name dateStr .Morning allResults)

/-- Model of `processData(location, config, selectedDate, allResults)`: the sequential
hall loop, threading the shared result array. -/
def processData (oracle : FetchOracle) (location : String)
    (config : LocationConfig) (d : SimpleDate) (allResults : List HallData) :
    List HallData :=
  config.halls.foldl
    (fun acc hall => hallStep oracle (sheetNameOf d) (formatDate d) location d.day hall acc)
    allResults

/-! ### Sorting (the final `allResults.sort(...)`) -/

/-- Lexicographic code-unit order on character lists. -/
def charListLt : List Char → List Char → Bool
  | _, [] => false
  | [], _ :: _ => true
  | a :: as, b :: bs => a < b || (a = b && charListLt as bs)

/-- Code-unit lexicographic "less than" on strings. -/
def strLtB (a b : String) : Bool :=
  charListLt a.data b.data

/-- Sign model of `a.localeCompare(b)` (the code only consumes the sign;
for the plain-ASCII names involved the locale order is code-unit order). -/
def strCompare (a b : String) : Int :=
  if strLtB a b then -1 else if a = b then 0 else 1

/-- The comparator passed to `allResults.sort`. -/
def jsCompare (a b : HallData) : Int :=
  if a.location ≠ b.location then strCompare a.location b.location
  else if a.hallName ≠ b.hallName then strCompare a.hallName b.hallName
  else if a.timeSlot = TimeSlot.Morning then -1 else 1

/-- The "should sort not-after" relation induced by the comparator. -/
def recLe (a b : HallData) : Prop := jsCompare a b ≤ 0

instance : DecidableRel recLe := fun a b =>
  inferInstanceAs (Decidable (jsCompare a b ≤ 0))

/-- The sort of `allResults` (a comparison sort; on the lists this program
produces the comparator is a strict total order on distinct keys, so every
correct comparison sort yields the same list — see the uniqueness lemmas). -/
def jsSort (l : List HallData) : List HallData :=
  List.insertionSort recLe l

/-! ### The aggregator -/

/-- Model of `fetchHallData(selectedDate)`: day-of-month guard, per-location
processing over the shared result array, final sort. -/
def fetchHallData (oracle : FetchOracle) (d : SimpleDate) : List HallData :=
  let dim := daysInMonth d.year d.month0
  if d.day < 1 ∨ d.day > dim then []
  else
    let allResults :=
      LOCATIONS.foldl (fun acc lc => processData oracle lc.1 lc.2 d acc) []
    jsSort allResults

/-- The number of configured halls across all locations. -/
def totalConfiguredHalls : Nat :=
  (LOCATIONS.map (fun lc => lc.2.halls.length)).sum

/-! ### The (location, hallName, timeSlot) key abstraction

The comparator `jsCompare` and the no-duplicate invariant only look at
these three fields; record equality and sorting facts are routed through
this projection. -/

abbrev HallKey := String × String × TimeSlot

/-- The (location, hallName, timeSlot) key of a record. -/
def recKey (r : HallData) : HallKey :=
  (r.location, r.hallName, r.timeSlot)

/-- The comparator `jsCompare` lifted to keys. -/
def keyCompare (k₁ k₂ : HallKey) : Int :=
  if k₁.1 ≠ k₂.1 then strCompare k₁.1 k₂.1
  else if k₁.2.1 ≠ k₂.2.1 then strCompare k₁.2.1 k₂.2.1
  else if k₁.2.2 = TimeSlot.Morning then -1 else 1

/-- The "should sort not-after" relation on keys. -/
def keyLe (k₁ k₂ : HallKey) : Prop := keyCompare k₁ k₂ ≤ 0

instance : DecidableRel keyLe := fun k₁ k₂ =>
  inferInstanceAs (Decidable (keyCompare k₁ k₂ ≤ 0))

/-- The (Morning, Evening) statuses the hall iteration determines:
`Booked`/`Booked` on any thrown-and-caught failure, the interpreted cell
values otherwise. -/
def hallStatuses (oracle : FetchOracle) (sheetName : String) (dayOfMonth : Nat)
    (hall : HallConfig) : Status × Status :=
  match fetchWithRetry (oracle (rangeExpr sheetName hall.morningRange)) 0 with
  | .error _ => (.Booked, .Booked)
  | .ok morningResponse =>
      match fetchWithRetry (oracle (rangeExpr sheetName hall.eveningRange)) 0 with
      | .error _ => (.Booked, .Booked)
      | .ok eveningResponse =>
          if morningResponse.isOk && eveningResponse.isOk then
            (processSlot (extractCell morningResponse.values
                ((dayOfMonth - 1) + hall.morningHeaderOffset)),
             processSlot (extractCell eveningResponse.values
                ((dayOfMonth - 1) + hall.eveningHeaderOffset)))
          else
            (.Booked, .Booked)

/-- The records one location's hall loop appends, in loop order. -/
def hallRecords (oracle : FetchOracle) (sheetName dateStr loc : String)
    (day : Nat) : List HallConfig → List HallData
  | [] => []
  | hall :: rest =>
      mkRecord dateStr loc hall.name .Morning
          (hallStatuses oracle sheetName day hall).1
        :: mkRecord dateStr loc hall.name .Evening
            (hallStatuses oracle sheetName day hall).2
        :: hallRecords oracle sheetName dateStr loc day rest

/-- The records one configured location contributes, in configuration order. -/
def locationRecords (oracle : FetchOracle) (d : SimpleDate)
    (lc : String × LocationConfig) : List HallData :=
  hallRecords oracle (sheetNameOf d) (formatDate d) lc.1 d.day lc.2.halls

/-- The pre-sort contents of `allResults` for an in-range day. -/
def allRecords (oracle : FetchOracle) (d : SimpleDate) : List HallData :=
  locationRecords oracle d ("GMK Banquets Tathawade", tathawadeConfig)
    ++ locationRecords oracle d ("GMK Banquets Ravet", ravetConfig)

/-- The 14 configured keys, in configuration order. -/
def baseKeys : List HallKey :=
  [ ("GMK Banquets Tathawade", "Aster", .Morning)
  , ("GMK Banquets Tathawade", "Aster", .Evening)
  , ("GMK Banquets Tathawade", "Grand", .Morning)
  , ("GMK Banquets Tathawade", "Grand", .Evening)
  , ("GMK Banquets Tathawade", "Tulip", .Morning)
  , ("GMK Banquets Tathawade", "Tulip", .Evening)
  , ("GMK Banquets Tathawade", "Lotus", .Morning)
  , ("GMK Banquets Tathawade", "Lotus", .Evening)
  , ("GMK Banquets Ravet", "Agastya", .Morning)
  , ("GMK Banquets Ravet", "Agastya", .Evening)
  , ("GMK Banquets Ravet", "Vyas", .Morning)
  , ("GMK Banquets Ravet", "Vyas", .Evening)
  , ("GMK Banquets Ravet", "Lawn", .Morning)
  , ("GMK Banquets Ravet", "Lawn", .Evening) ]

/-- The 14 configured keys in the order the sort contract promises. -/
def sortedBaseKeys : List HallKey :=
  [ ("GMK Banquets Ravet", "Agastya", .Morning)
  , ("GMK Banquets Ravet", "Agastya", .Evening)
  , ("GMK Banquets Ravet", "Lawn", .Morning)
  , ("GMK Banquets Ravet", "Lawn", .Evening)
  , ("GMK Banquets Ravet", "Vyas", .Morning)
  , ("GMK Banquets Ravet", "Vyas", .Evening)
  , ("GMK Banquets Tathawade", "Aster", .Morning)
  , ("GMK Banquets Tathawade", "Aster", .Evening)
  , ("GMK Banquets Tathawade", "Grand", .Morning)
  , ("GMK Banquets Tathawade", "Grand", .Evening)
  , ("GMK Banquets Tathawade", "Lotus", .Morning)
  , ("GMK Banquets Tathawade", "Lotus", .Evening)
  , ("GMK Banquets Tathawade", "Tulip", .Morning)
  , ("GMK Banquets Tathawade", "Tulip", .Evening) ]

/-! ### Completion-order model

The two locations' `processData` calls run concurrently and append to the
shared `allResults` array in whatever order their awaits complete; within
one location the appends are sequential.  `interleaveBy sched` produces the
array contents under the completion schedule `sched` (`true` = the first
location's next pending record lands first). -/

def interleaveBy {α : Type} : List Bool → List α → List α → List α
  | [], xs, ys => xs ++ ys
  | true :: s, xs, ys =>
      match xs with
      | [] => ys
      | x :: xs' => x :: interleaveBy s xs' ys
  | false :: s, xs, ys =>
      match ys with
      | [] => xs
      | y :: ys' => y :: interleaveBy s xs ys'

/-! ### Await-structure model (which fetches can be in flight together)

`async` control flow is modelled by its await shape: `seqStep a b` runs `a`
to completion before starting `b` (an `await` between them), `bothOf a b`
starts `a` and `b` together (`Promise.all`).  Two fetch operations can be
in flight simultaneously exactly when some `bothOf` node puts them on
different sides. -/

inductive AsyncShape where
  | doneStep : AsyncShape
  | fetchOp : String → String → TimeSlot → AsyncShape
  | seqStep : AsyncShape → AsyncShape → AsyncShape
  | bothOf : AsyncShape → AsyncShape → AsyncShape
deriving DecidableEq, Repr

def containsFetch : AsyncShape → String → String → TimeSlot → Bool
  | .doneStep, _, _, _ => false
  | .fetchOp l n s, l', n', s' => l == l' && n == n' && s == s'
  | .seqStep a b, l, n, s => containsFetch a l n s || containsFetch b l n s
  | .bothOf a b, l, n, s => containsFetch a l n s || containsFetch b l n s

/-- Whether the fetches labelled `(l₁, n₁, s₁)` and `(l₂, n₂, s₂)` can be in
flight together somewhere in the shape. -/
def mayOverlap (p : AsyncShape) (l₁ n₁ : String) (s₁ : TimeSlot)
    (l₂ n₂ : String) (s₂ : TimeSlot) : Bool :=
  match p with
  | .doneStep => false
  | .fetchOp _ _ _ => false
  | .seqStep a b => mayOverlap a l₁ n₁ s₁ l₂ n₂ s₂ || mayOverlap b l₁ n₁ s₁ l₂ n₂ s₂
  | .bothOf a b =>
      mayOverlap a l₁ n₁ s₁ l₂ n₂ s₂ || mayOverlap b l₁ n₁ s₁ l₂ n₂ s₂
        || (containsFetch a l₁ n₁ s₁ && containsFetch b l₂ n₂ s₂)
        || (containsFetch a l₂ n₂ s₂ && containsFetch b l₁ n₁ s₁)

/-- One hall's awaits: the morning fetch is awaited
(`morningResponse = await fetchWithRetry(morningUrl, 0, 'Morning')`) before
the evening fetch is started (`await fetchWithRetry(eveningUrl, 0, ...)`). -/
def hallShape (loc : String) (h : HallConfig) : AsyncShape :=
  .seqStep (.fetchOp loc h.name .Morning) (.fetchOp loc h.name .Evening)

/-- One location's `for (const hall of config.halls)` loop: each iteration's
awaits complete before the next iteration starts. -/
def locationShape (loc : String) (cfg : LocationConfig) : AsyncShape :=
  cfg.halls.foldr (fun h acc => .seqStep (hallShape loc h) acc) .doneStep

/-- Model of `Promise.all(locationPromises)`: the two locations' processing runs
concurrently; the aggregator awaits both before sorting and returning. -/
def aggregatorShape : AsyncShape :=
  .bothOf (locationShape "GMK Banquets Tathawade" tathawadeConfig)
    (locationShape "GMK Banquets Ravet" ravetConfig)

/-! ### Statement-side definitions for the claims -/

/-- The order claimed for the final list: location lexicographic, then hall
name lexicographic, then Morning before Evening. -/
def claimKeyLt (k₁ k₂ : HallKey) : Prop :=
  strLtB k₁.1 k₂.1 = true
    ∨ (k₁.1 = k₂.1 ∧ (strLtB k₁.2.1 k₂.2.1 = true
        ∨ (k₁.2.1 = k₂.2.1 ∧ k₁.2.2 = TimeSlot.Morning ∧ k₂.2.2 = TimeSlot.Evening)))

instance : DecidableRel claimKeyLt := fun k₁ k₂ => by
  unfold claimKeyLt
  infer_instance

/-- The key list splits into adjacent pairs, each a Morning record
immediately followed by the Evening record of the same location and hall. -/
def pairedAdjacent : List HallKey → Bool
  | [] => true
  | [_] => false
  | k₁ :: k₂ :: rest =>
      k₁.2.2 == TimeSlot.Morning && k₂.2.2 == TimeSlot.Evening
        && k₁.1 == k₂.1 && k₁.2.1 == k₂.2.1 && pairedAdjacent rest

/-- A remote store answering every attempt with HTTP 500 and no body. -/
def oracle500attempts : Nat → AttemptOutcome :=
  fun _ => .resp { status := 500, values := none }

/-- A remote store whose every attempt throws (e.g. the store is
unreachable, or every attempt hits the 15 s timeout). -/
def exnAttempts : Nat → AttemptOutcome :=
  fun _ => .exnThrown

/-- A healthy remote store: every range resolves to a single-row batch
containing `"VAC"`. -/
def witnessOracle : FetchOracle :=
  fun _ _ => .resp { status := 200, values := some [["VAC"]] }

/-- 2025-05-18, a day inside its month. -/
def witnessDate : SimpleDate := { year := 2025, month0 := 4, day := 18 }

/-- 2025-05-31: day 31 of a 31-day month. -/
def day31Date : SimpleDate := { year := 2025, month0 := 4, day := 31 }

/-- February 29 of year 0: a constructible `Date` (year 0 is a leap year of
the proleptic Gregorian calendar, so this day is valid for its month), but
the month-length computation feeds year 0 through the constructor's
two-digit-year remap and measures February 1900 (28 days) instead. -/
def feb29Year0 : SimpleDate := { year := 0, month0 := 1, day := 29 }

theorem jsCompare_eq_keyCompare (a b : HallData) :
    jsCompare a b = keyCompare (recKey a) (recKey b) := rfl

theorem recLe_iff_keyLe (a b : HallData) :
    recLe a b ↔ keyLe (recKey a) (recKey b) := Iff.rfl

/-! ### Order facts about the comparator -/

theorem charListLt_irrefl : ∀ l : List Char, charListLt l l = false
  | [] => rfl
  | a :: as => by
      simp [charListLt, charListLt_irrefl as]

theorem charListLt_asymm : ∀ {l₁ l₂ : List Char},
    charListLt l₁ l₂ = true → charListLt l₂ l₁ = false
  | _ :: _, [], h => by simp [charListLt] at h
  | [], _ :: _, _ => rfl
  | [], [], h => by simp [charListLt] at h
  | a :: as, b :: bs, h => by
      simp only [charListLt, Bool.or_eq_true, Bool.and_eq_true, decide_eq_true_eq] at h ⊢
      rcases h with h | ⟨hab, h⟩
      · simp only [Bool.or_eq_false_iff, Bool.and_eq_false_iff]
        exact ⟨by simpa using (lt_asymm h), Or.inl (by simpa using (ne_of_gt h))⟩
      · subst hab
        simp [lt_irrefl, charListLt_asymm h]

theorem charListLt_trans : ∀ {l₁ l₂ l₃ : List Char},
    charListLt l₁ l₂ = true → charListLt l₂ l₃ = true → charListLt l₁ l₃ = true
  | _, _ :: _, [], _, h₂ => by simp [charListLt] at h₂
  | _, [], [], _, h₂ => by simp [charListLt] at h₂
  | [], _, _ :: _, _, _ => rfl
  | _ :: _, [], _ :: _, h₁, _ => by simp [charListLt] at h₁
  | a :: as, b :: bs, c :: cs, h₁, h₂ => by
      simp only [charListLt, Bool.or_eq_true, Bool.and_eq_true, decide_eq_true_eq] at h₁ h₂ ⊢
      rcases h₁ with h₁ | ⟨hab, h₁⟩
      · rcases h₂ with h₂ | ⟨hbc, h₂⟩
        · exact Or.inl (lt_trans h₁ h₂)
        · exact Or.inl (hbc ▸ h₁)
      · subst hab
        rcases h₂ with h₂ | ⟨hbc, h₂⟩
        · exact Or.inl h₂
        · exact Or.inr ⟨hbc, charListLt_trans h₁ h₂⟩

theorem charListLt_total_of_ne : ∀ {l₁ l₂ : List Char}, l₁ ≠ l₂ →
    charListLt l₁ l₂ = true ∨ charListLt l₂ l₁ = true
  | [], [], h => absurd rfl h
  | [], _ :: _, _ => Or.inl rfl
  | _ :: _, [], _ => Or.inr rfl
  | a :: as, b :: bs, h => by
      rcases eq_or_ne a b with hab | hab
      · subst hab
        have : as ≠ bs := fun hh => h (hh ▸ rfl)
        rcases charListLt_total_of_ne this with h' | h' <;>
          simp [charListLt, h', lt_irrefl]
      · rcases lt_or_gt_of_ne hab with h' | h'
        · exact Or.inl (by simp [charListLt, h'])
        · exact Or.inr (by simp [charListLt, h'])

theorem strLtB_irrefl (a : String) : strLtB a a = false :=
  charListLt_irrefl a.data

theorem strLtB_asymm {a b : String} (h : strLtB a b = true) : strLtB b a = false :=
  charListLt_asymm h

theorem strLtB_trans {a b c : String} (h₁ : strLtB a b = true)
    (h₂ : strLtB b c = true) : strLtB a c = true :=
  charListLt_trans h₁ h₂

theorem strLtB_total_of_ne {a b : String} (h : a ≠ b) :
    strLtB a b = true ∨ strLtB b a = true :=
  charListLt_total_of_ne (fun hd => h (by cases a; cases b; exact congrArg String.mk hd))

theorem strLtB_ne {a b : String} (h : strLtB a b = true) : a ≠ b := by
  rintro rfl
  simp [strLtB_irrefl] at h

/-- Nonpositive `strCompare a b` for distinct strings means exactly `a` sorts first. -/
theorem strCompare_nonpos_of_ne {a b : String} (h : a ≠ b) :
    strCompare a b ≤ 0 ↔ strLtB a b = true := by
  unfold strCompare
  rcases hlt : strLtB a b with _ | _ <;> simp [hlt, h]

/-- Case description of the key order. -/
theorem keyLe_iff (k₁ k₂ : HallKey) : keyLe k₁ k₂ ↔
    (k₁.1 ≠ k₂.1 ∧ strLtB k₁.1 k₂.1 = true) ∨
    (k₁.1 = k₂.1 ∧ k₁.2.1 ≠ k₂.2.1 ∧ strLtB k₁.2.1 k₂.2.1 = true) ∨
    (k₁.1 = k₂.1 ∧ k₁.2.1 = k₂.2.1 ∧ k₁.2.2 = TimeSlot.Morning) := by
  unfold keyLe keyCompare
  split_ifs with h₁ h₂ h₃
  · simp [h₁, strCompare_nonpos_of_ne h₁]
  · push_neg at h₁
    simp [h₁, h₂, strCompare_nonpos_of_ne h₂]
  · push_neg at h₁ h₂
    simp [h₁, h₂, h₃]
  · push_neg at h₁ h₂
    simp [h₁, h₂, h₃]

theorem keyLe_trans {k₁ k₂ k₃ : HallKey}
    (h₁₂ : keyLe k₁ k₂) (h₂₃ : keyLe k₂ k₃) : keyLe k₁ k₃ := by
  obtain ⟨l₁, n₁, s₁⟩ := k₁
  obtain ⟨l₂, n₂, s₂⟩ := k₂
  obtain ⟨l₃, n₃, s₃⟩ := k₃
  rw [keyLe_iff] at h₁₂ h₂₃ ⊢
  simp only at h₁₂ h₂₃ ⊢
  rcases h₁₂ with ⟨hl, hlt⟩ | ⟨hl, hn, hlt⟩ | ⟨hl, hn, hM⟩ <;>
    rcases h₂₃ with ⟨hl', hlt'⟩ | ⟨hl', hn', hlt'⟩ | ⟨hl', hn', _⟩
  · exact Or.inl ⟨strLtB_ne (strLtB_trans hlt hlt'), strLtB_trans hlt hlt'⟩
  · exact Or.inl ⟨hl' ▸ hl, hl' ▸ hlt⟩
  · exact Or.inl ⟨hl' ▸ hl, hl' ▸ hlt⟩
  · exact Or.inl ⟨hl ▸ hl', hl ▸ hlt'⟩
  · exact Or.inr (Or.inl ⟨hl.trans hl', strLtB_ne (strLtB_trans hlt hlt'),
      strLtB_trans hlt hlt'⟩)
  · exact Or.inr (Or.inl ⟨hl.trans hl', hn' ▸ hn, hn' ▸ hlt⟩)
  · exact Or.inl ⟨hl ▸ hl', hl ▸ hlt'⟩
  · exact Or.inr (Or.inl ⟨hl.trans hl', hn ▸ hn', hn ▸ hlt'⟩)
  · exact Or.inr (Or.inr ⟨hl.trans hl', hn.trans hn', hM⟩)

theorem keyLe_antisymm_eq {k₁ k₂ : HallKey}
    (h₁₂ : keyLe k₁ k₂) (h₂₁ : keyLe k₂ k₁) : k₁ = k₂ := by
  obtain ⟨l₁, n₁, s₁⟩ := k₁
  obtain ⟨l₂, n₂, s₂⟩ := k₂
  rw [keyLe_iff] at h₁₂ h₂₁
  simp only at h₁₂ h₂₁
  rcases h₁₂ with ⟨hl, hlt⟩ | ⟨hl, hn, hlt⟩ | ⟨hl, hn, hM⟩ <;>
    rcases h₂₁ with ⟨hl', hlt'⟩ | ⟨hl', hn', hlt'⟩ | ⟨hl', hn', hM'⟩
  · exact absurd hlt' (by simp [strLtB_asymm hlt])
  · exact absurd hl'.symm hl
  · exact absurd hl'.symm hl
  · exact absurd hl.symm hl'
  · exact absurd hlt' (by simp [strLtB_asymm hlt])
  · exact absurd hn'.symm hn
  · exact absurd hl.symm hl'
  · exact absurd hn.symm hn'
  · simp [hl, hn, hM, hM']

theorem keyLe_total_of_ne {k₁ k₂ : HallKey} (h : k₁ ≠ k₂) :
    keyLe k₁ k₂ ∨ keyLe k₂ k₁ := by
  obtain ⟨l₁, n₁, s₁⟩ := k₁
  obtain ⟨l₂, n₂, s₂⟩ := k₂
  rcases eq_or_ne l₁ l₂ with hl | hl
  · rcases eq_or_ne n₁ n₂ with hn | hn
    · have hs : s₁ ≠ s₂ := by
        rintro rfl
        exact h (by simp [hl, hn])
      cases s₁ <;> cases s₂ <;> simp at hs
      · exact Or.inl ((keyLe_iff _ _).mpr (Or.inr (Or.inr ⟨hl, hn, rfl⟩)))
      · exact Or.inr ((keyLe_iff _ _).mpr (Or.inr (Or.inr ⟨hl.symm, hn.symm, rfl⟩)))
    · rcases strLtB_total_of_ne hn with hlt | hlt
      · exact Or.inl ((keyLe_iff _ _).mpr (Or.inr (Or.inl ⟨hl, hn, hlt⟩)))
      · exact Or.inr ((keyLe_iff _ _).mpr (Or.inr (Or.inl ⟨hl.symm, hn.symm, hlt⟩)))
  · rcases strLtB_total_of_ne hl with hlt | hlt
    · exact Or.inl ((keyLe_iff _ _).mpr (Or.inl ⟨hl, hlt⟩))
    · exact Or.inr ((keyLe_iff _ _).mpr (Or.inl ⟨hl.symm, hlt⟩))

theorem recLe_trans {a b c : HallData} (h₁ : recLe a b) (h₂ : recLe b c) :
    recLe a c :=
  (recLe_iff_keyLe a c).mpr
    (keyLe_trans ((recLe_iff_keyLe a b).mp h₁) ((recLe_iff_keyLe b c).mp h₂))

theorem recLe_antisymm_key {a b : HallData} (h₁ : recLe a b) (h₂ : recLe b a) :
    recKey a = recKey b :=
  keyLe_antisymm_eq ((recLe_iff_keyLe a b).mp h₁) ((recLe_iff_keyLe b a).mp h₂)

theorem recLe_total_of_key_ne {a b : HallData} (h : recKey a ≠ recKey b) :
    recLe a b ∨ recLe b a := by
  rcases keyLe_total_of_ne h with h' | h'
  · exact Or.inl ((recLe_iff_keyLe a b).mpr h')
  · exact Or.inr ((recLe_iff_keyLe b a).mpr h')

/-! ### Sorting lemmas

`jsCompare` is not a consistent comparator on all of `HallData` (two
distinct Evening records of one hall would compare "after" each other), but
on the duplicate-free-key lists this program builds it is a strict total
order, so the sort result is the unique sorted permutation.  The lemmas
below prove sortedness from pairwise totality on the list's own members,
and uniqueness of a sorted permutation up to an injective projection. -/

section SortLemmas

variable {α : Type} (r : α → α → Prop) [DecidableRel r]

theorem sorted_orderedInsert_local
    (htrans : ∀ a b c, r a b → r b c → r a c) (a : α) :
    ∀ s : List α, List.Sorted r s → a ∉ s → (∀ b ∈ s, r a b ∨ r b a) →
      List.Sorted r (List.orderedInsert r a s)
  | [], _, _, _ => List.sorted_singleton a
  | b :: s', hs, hmem, htot => by
      rcases List.sorted_cons.mp hs with ⟨hb, hs'⟩
      by_cases hab : r a b
      · rw [List.orderedInsert, if_pos hab, List.sorted_cons]
        refine ⟨?_, hs⟩
        intro x hx
        rcases List.mem_cons.mp hx with rfl | hx
        · exact hab
        · exact htrans a b x hab (hb x hx)
      · rw [List.orderedInsert, if_neg hab, List.sorted_cons]
        constructor
        · intro x hx
          rcases (List.mem_orderedInsert r).mp hx with h | hx
          · subst h
            rcases htot b (List.mem_cons_self b s') with h' | h'
            · exact absurd h' hab
            · exact h'
          · exact hb x hx
        · exact sorted_orderedInsert_local htrans a s' hs'
            (fun h => hmem (List.mem_cons_of_mem b h))
            (fun c hc => htot c (List.mem_cons_of_mem b hc))

theorem sorted_insertionSort_local
    (htrans : ∀ a b c, r a b → r b c → r a c) :
    ∀ l : List α, l.Nodup → (∀ x ∈ l, ∀ y ∈ l, x ≠ y → r x y ∨ r y x) →
      List.Sorted r (List.insertionSort r l)
  | [], _, _ => List.sorted_nil
  | a :: l, hnd, htot => by
      rcases List.nodup_cons.mp hnd with ⟨hal, hnd'⟩
      rw [List.insertionSort]
      refine sorted_orderedInsert_local r htrans a _
        (sorted_insertionSort_local htrans l hnd'
          (fun x hx y hy => htot x (List.mem_cons_of_mem a hx)
            y (List.mem_cons_of_mem a hy))) ?_ ?_
      · intro h
        exact hal ((List.perm_insertionSort r l).mem_iff.mp h)
      · intro b hb
        have hbl : b ∈ l := (List.perm_insertionSort r l).mem_iff.mp hb
        exact htot a (List.mem_cons_self a l) b (List.mem_cons_of_mem a hbl)
          (fun h => hal (h ▸ hbl))

omit [DecidableRel r] in
/-- A list that is a permutation of a sorted list, itself sorted, and whose
projection under `f` is duplicate-free, is that same list: the sorted order
of a duplicate-free-key multiset is unique. -/
theorem eq_of_perm_of_sorted_of_nodup_map {β : Type} (f : α → β)
    (hanti : ∀ a b, r a b → r b a → f a = f b) :
    ∀ {l₁ l₂ : List α}, l₁.Perm l₂ → List.Sorted r l₁ → List.Sorted r l₂ →
      (l₁.map f).Nodup → l₁ = l₂
  | [], l₂, hp, _, _, _ => (hp.symm.eq_nil).symm
  | a :: t₁, [], hp, _, _, _ => by simpa using hp.eq_nil
  | a :: t₁, b :: t₂, hp, hs₁, hs₂, hnd => by
      have hab : a = b := by
        by_contra hne
        have ha₂ : a ∈ t₂ := by
          rcases List.mem_cons.mp (hp.mem_iff.mp (List.mem_cons_self a t₁)) with h | h
          · exact absurd h hne
          · exact h
        have hb₁ : b ∈ t₁ := by
          rcases List.mem_cons.mp (hp.symm.mem_iff.mp (List.mem_cons_self b t₂)) with h | h
          · exact absurd h.symm hne
          · exact h
        have hfab : f a = f b :=
          hanti a b ((List.sorted_cons.mp hs₁).1 b hb₁)
            ((List.sorted_cons.mp hs₂).1 a ha₂)
        exact (List.nodup_cons.mp hnd).1 (hfab ▸ List.mem_map_of_mem f hb₁)
      subst hab
      have ht : t₁ = t₂ :=
        eq_of_perm_of_sorted_of_nodup_map f hanti hp.cons_inv
          (List.sorted_cons.mp hs₁).2 (List.sorted_cons.mp hs₂).2
          (List.nodup_cons.mp hnd).2
      rw [ht]

end SortLemmas

/-- Inserting commutes with the key projection: the comparator only reads
the key fields. -/
theorem map_recKey_orderedInsert (a : HallData) :
    ∀ l : List HallData,
      (List.orderedInsert recLe a l).map recKey
        = List.orderedInsert keyLe (recKey a) (l.map recKey)
  | [] => rfl
  | b :: t => by
      by_cases h : recLe a b
      · have h' : keyLe (recKey a) (recKey b) := (recLe_iff_keyLe a b).mp h
        simp [List.orderedInsert, if_pos h, if_pos h']
      · have h' : ¬ keyLe (recKey a) (recKey b) :=
          fun hh => h ((recLe_iff_keyLe a b).mpr hh)
        simp [List.orderedInsert, if_neg h, if_neg h',
          map_recKey_orderedInsert a t]

/-- The sort commutes with the key projection. -/
theorem map_recKey_jsSort :
    ∀ l : List HallData,
      (jsSort l).map recKey = List.insertionSort keyLe (l.map recKey)
  | [] => rfl
  | a :: t => by
      simp only [jsSort, List.insertionSort, List.map]
      rw [map_recKey_orderedInsert]
      rw [show (List.insertionSort recLe t).map recKey
            = List.insertionSort keyLe (t.map recKey) from map_recKey_jsSort t]

/-! ### Characterizing the per-hall step

The two statuses a hall iteration produces are a pure function of the
oracle; every branch of the iteration appends exactly one Morning and one
Evening record for that hall (fallbacks only fill slots not already
present). -/

theorem find?_slot_eq_none {acc : List HallData} {loc name dateStr : String}
    {slot : TimeSlot}
    (h : ∀ r ∈ acc, ¬(r.location = loc ∧ r.hallName = name ∧ r.timeSlot = slot)) :
    acc.find? (fun r =>
      r.location == loc && r.hallName == name
        && r.timeSlot == slot && r.date == dateStr) = none := by
  rw [List.find?_eq_none]
  intro r hr
  have := h r hr
  simp only [Bool.and_eq_true, beq_iff_eq]
  rintro ⟨⟨⟨h₁, h₂⟩, h₃⟩, _⟩
  exact this ⟨h₁, h₂, h₃⟩

/-- The `catch` block (`addFallbackIfNeeded('Morning')` then `'Evening'`) on
an accumulator holding nothing for this hall appends exactly the two
`Booked` fallback records. -/
theorem fallback_pair_eq {acc : List HallData} {loc name dateStr : String}
    (hM : ∀ r ∈ acc, ¬(r.location = loc ∧ r.hallName = name ∧ r.timeSlot = TimeSlot.Morning))
    (hE : ∀ r ∈ acc, ¬(r.location = loc ∧ r.hallName = name ∧ r.timeSlot = TimeSlot.Evening)) :
    addFallbackIfNeeded loc name dateStr .Evening
      (addFallbackIfNeeded loc name dateStr .Morning acc)
    = acc ++ [mkRecord dateStr loc name .Morning .Booked,
              mkRecord dateStr loc name .Evening .Booked] := by
  have hm : addFallbackIfNeeded loc name dateStr .Morning acc
      = acc ++ [mkRecord dateStr loc name .Morning .Booked] := by
    unfold addFallbackIfNeeded
    rw [find?_slot_eq_none hM]
  rw [hm]
  have he : ∀ r ∈ acc ++ [mkRecord dateStr loc name .Morning .Booked],
      ¬(r.location = loc ∧ r.hallName = name ∧ r.timeSlot = TimeSlot.Evening) := by
    intro r hr
    rcases List.mem_append.mp hr with hr | hr
    · exact hE r hr
    · rcases List.mem_singleton.mp hr with rfl
      rintro ⟨_, _, hslot⟩
      simp [mkRecord] at hslot
  unfold addFallbackIfNeeded
  rw [find?_slot_eq_none he, List.append_assoc]
  rfl

/-- Every branch of the hall iteration appends exactly one Morning and one
Evening record carrying the `hallStatuses` statuses, provided the
accumulator holds nothing for this hall yet. -/
theorem hallStep_eq {oracle : FetchOracle} {sheetName dateStr loc : String}
    {day : Nat} {hall : HallConfig} {acc : List HallData}
    (hM : ∀ r ∈ acc, ¬(r.location = loc ∧ r.hallName = hall.name ∧ r.timeSlot = TimeSlot.Morning))
    (hE : ∀ r ∈ acc, ¬(r.location = loc ∧ r.hallName = hall.name ∧ r.timeSlot = TimeSlot.Evening)) :
    hallStep oracle sheetName dateStr loc day hall acc
      = acc ++
        [ mkRecord dateStr loc hall.name .Morning
            (hallStatuses oracle sheetName day hall).1
        , mkRecord dateStr loc hall.name .Evening
            (hallStatuses oracle sheetName day hall).2 ] := by
  unfold hallStep hallStatuses
  rcases hm : fetchWithRetry (oracle (rangeExpr sheetName hall.morningRange)) 0 with u | mresp
  · exact fallback_pair_eq hM hE
  · rcases he : fetchWithRetry (oracle (rangeExpr sheetName hall.eveningRange)) 0 with u | eresp
    · exact fallback_pair_eq hM hE
    · dsimp only
      by_cases hok : (mresp.isOk && eresp.isOk) = true
      · rw [if_pos hok, if_pos hok, List.append_assoc]
        rfl
      · rw [if_neg hok, if_neg hok]
        exact fallback_pair_eq hM hE

/-! ### Characterizing a location's loop and the aggregator -/

theorem mem_hallRecords {oracle : FetchOracle} {sheetName dateStr loc : String}
    {day : Nat} : ∀ {halls : List HallConfig} {r : HallData},
    r ∈ hallRecords oracle sheetName dateStr loc day halls →
      r.location = loc ∧ r.date = dateStr ∧
        ∃ h ∈ halls, r.hallName = h.name ∧
          (r.status = (hallStatuses oracle sheetName day h).1
            ∨ r.status = (hallStatuses oracle sheetName day h).2)
  | hall :: rest, r, hr => by
      rcases List.mem_cons.mp hr with rfl | hr
      · exact ⟨rfl, rfl, hall, List.mem_cons_self hall rest, rfl, Or.inl rfl⟩
      · rcases List.mem_cons.mp hr with rfl | hr
        · exact ⟨rfl, rfl, hall, List.mem_cons_self hall rest, rfl, Or.inr rfl⟩
        · obtain ⟨h₁, h₂, h, hh, h₃, h₄⟩ := mem_hallRecords hr
          exact ⟨h₁, h₂, h, List.mem_cons_of_mem hall hh, h₃, h₄⟩

theorem foldl_hallStep_eq {oracle : FetchOracle} {sheetName dateStr loc : String}
    {day : Nat} : ∀ (halls : List HallConfig) (acc : List HallData),
    (∀ r ∈ acc, ∀ h ∈ halls, ¬(r.location = loc ∧ r.hallName = h.name)) →
    (halls.map HallConfig.name).Nodup →
    halls.foldl (fun acc hall => hallStep oracle sheetName dateStr loc day hall acc) acc
      = acc ++ hallRecords oracle sheetName dateStr loc day halls
  | [], acc, _, _ => by simp [hallRecords]
  | hall :: rest, acc, hdisj, hnd => by
      rw [List.foldl_cons]
      have hstep := @hallStep_eq oracle sheetName dateStr loc day hall acc
        (fun r hr hcon => hdisj r hr hall (List.mem_cons_self hall rest) ⟨hcon.1, hcon.2.1⟩)
        (fun r hr hcon => hdisj r hr hall (List.mem_cons_self hall rest) ⟨hcon.1, hcon.2.1⟩)
      rw [hstep]
      have hname : hall.name ∉ rest.map HallConfig.name := (List.nodup_cons.mp hnd).1
      have hdisj' : ∀ r ∈ acc ++
          [ mkRecord dateStr loc hall.name .Morning
              (hallStatuses oracle sheetName day hall).1
          , mkRecord dateStr loc hall.name .Evening
              (hallStatuses oracle sheetName day hall).2 ],
          ∀ h ∈ rest, ¬(r.location = loc ∧ r.hallName = h.name) := by
        intro r hr h hh
        rcases List.mem_append.mp hr with hr | hr
        · exact hdisj r hr h (List.mem_cons_of_mem hall hh)
        · have hrn : r.hallName = hall.name := by
            rcases List.mem_cons.mp hr with rfl | hr
            · rfl
            · rcases List.mem_singleton.mp hr with rfl
              rfl
          rintro ⟨_, hn⟩
          have heq : hall.name = h.name := hrn.symm.trans hn
          exact hname (by rw [heq]; exact List.mem_map_of_mem HallConfig.name hh)
      rw [foldl_hallStep_eq rest _ hdisj' (List.nodup_cons.mp hnd).2,
        List.append_assoc]
      rfl

theorem preSort_eq (oracle : FetchOracle) (d : SimpleDate) :
    LOCATIONS.foldl (fun acc lc => processData oracle lc.1 lc.2 d acc) []
      = allRecords oracle d := by
  simp only [LOCATIONS, List.foldl_cons, List.foldl_nil]
  have h₁ : processData oracle "GMK Banquets Tathawade" tathawadeConfig d []
      = locationRecords oracle d ("GMK Banquets Tathawade", tathawadeConfig) := by
    unfold processData locationRecords
    rw [foldl_hallStep_eq _ _ (by intro r hr; simp at hr) (by decide)]
    rfl
  rw [h₁]
  unfold processData allRecords locationRecords
  rw [foldl_hallStep_eq _ _ ?_ (by decide)]
  intro r hr h _
  have hl := (mem_hallRecords hr).1
  rintro ⟨hl', _⟩
  rw [hl] at hl'
  exact absurd hl' (by decide)

theorem fetchHallData_eq_of_valid {oracle : FetchOracle} {d : SimpleDate}
    (h₁ : 1 ≤ d.day) (h₂ : d.day ≤ daysInMonth d.year d.month0) :
    fetchHallData oracle d = jsSort (allRecords oracle d) := by
  unfold fetchHallData
  rw [if_neg (by omega), preSort_eq]

theorem map_recKey_allRecords (oracle : FetchOracle) (d : SimpleDate) :
    (allRecords oracle d).map recKey = baseKeys := rfl

theorem insertionSort_baseKeys :
    List.insertionSort keyLe baseKeys = sortedBaseKeys := by decide

theorem map_recKey_fetchHallData (oracle : FetchOracle) {d : SimpleDate}
    (h₁ : 1 ≤ d.day) (h₂ : d.day ≤ daysInMonth d.year d.month0) :
    (fetchHallData oracle d).map recKey = sortedBaseKeys := by
  rw [fetchHallData_eq_of_valid h₁ h₂, map_recKey_jsSort,
    map_recKey_allRecords, insertionSort_baseKeys]

theorem baseKeys_nodup : baseKeys.Nodup := by decide

/-- On a duplicate-free-key multiset, the sort result is a function of the
multiset: any two permutations of each other sort identically. -/
theorem jsSort_eq_of_perm {l₁ l₂ : List HallData} (hp : l₁.Perm l₂)
    (hnd : (l₂.map recKey).Nodup) : jsSort l₁ = jsSort l₂ := by
  have hnd₁ : (l₁.map recKey).Nodup := ((hp.map recKey).nodup_iff).mpr hnd
  have sorted₁ : List.Sorted recLe (jsSort l₁) :=
    sorted_insertionSort_local recLe (fun a b c => recLe_trans) l₁
      (List.Nodup.of_map recKey hnd₁)
      (fun x hx y hy hne =>
        recLe_total_of_key_ne
          (fun hk => hne (List.inj_on_of_nodup_map hnd₁ hx hy hk)))
  have sorted₂ : List.Sorted recLe (jsSort l₂) :=
    sorted_insertionSort_local recLe (fun a b c => recLe_trans) l₂
      (List.Nodup.of_map recKey hnd)
      (fun x hx y hy hne =>
        recLe_total_of_key_ne
          (fun hk => hne (List.inj_on_of_nodup_map hnd hx hy hk)))
  refine eq_of_perm_of_sorted_of_nodup_map recLe recKey
    (fun a b => recLe_antisymm_key) ?_ sorted₁ sorted₂ ?_
  · exact (List.perm_insertionSort recLe l₁).trans
      (hp.trans (List.perm_insertionSort recLe l₂).symm)
  · exact (((List.perm_insertionSort recLe l₁).map recKey).nodup_iff).mpr hnd₁

theorem interleaveBy_perm {α : Type} :
    ∀ (sched : List Bool) (xs ys : List α),
      (interleaveBy sched xs ys).Perm (xs ++ ys)
  | [], xs, ys => List.Perm.refl _
  | true :: s, xs, ys => by
      match xs with
      | [] => simp [interleaveBy]
      | x :: xs' =>
          exact (List.Perm.cons x (interleaveBy_perm s xs' ys))
  | false :: s, xs, ys => by
      match ys with
      | [] => simp [interleaveBy]
      | y :: ys' =>
          exact (List.Perm.cons y (interleaveBy_perm s xs ys')).trans
            List.perm_middle.symm

/-! ### Retry analysis -/

theorem fetchWithRetryGo_ok_exists {att : Nat → AttemptOutcome} :
    ∀ (n : Nat), ∀ {s : Nat} {r : HttpResponse},
      fetchWithRetryGo att n s = .ok r → ∃ k, att k = .resp r := by
  intro n
  induction n with
  | zero =>
      intro s r h
      rcases ha : att s with _ | r' <;> rw [fetchWithRetryGo, ha] at h
      · exact absurd h (by simp)
      · rcases h with ⟨⟩
        exact ⟨s, ha⟩
  | succ n ih =>
      intro s r h
      rcases ha : att s with _ | r' <;> rw [fetchWithRetryGo, ha] at h
      · exact ih h
      · rcases h with ⟨⟩
        exact ⟨s, ha⟩

theorem fetchWithRetry_ok_exists {att : Nat → AttemptOutcome}
    {r : HttpResponse} (h : fetchWithRetry att 0 = .ok r) :
    ∃ k, att k = .resp r :=
  fetchWithRetryGo_ok_exists (maxRetries - 0) h

theorem fetchWithRetry_of_resp0 {att : Nat → AttemptOutcome} {r : HttpResponse}
    (h : att 0 = .resp r) :
    fetchWithRetry att 0 = .ok r ∧ attemptsUsed att 0 = 1 := by
  constructor
  · show fetchWithRetryGo att (maxRetries - 0) 0 = .ok r
    rw [show maxRetries - 0 = 2 + 1 from rfl, fetchWithRetryGo, h]
  · show attemptsUsedGo att (maxRetries - 0) 0 = 1
    rw [show maxRetries - 0 = 2 + 1 from rfl, attemptsUsedGo, h]

theorem fetchWithRetry_error_iff (att : Nat → AttemptOutcome) :
    fetchWithRetry att 0 = .error () ↔
      att 0 = .exnThrown ∧ att 1 = .exnThrown
        ∧ att 2 = .exnThrown ∧ att 3 = .exnThrown := by
  show fetchWithRetryGo att (maxRetries - 0) 0 = .error () ↔ _
  rw [show maxRetries - 0 = 2 + 1 from rfl]
  rcases h₀ : att 0 with _ | r₀
  · rw [fetchWithRetryGo, h₀, show (2 : Nat) = 1 + 1 from rfl]
    rcases h₁ : att 1 with _ | r₁
    · rw [fetchWithRetryGo, h₁, show (1 : Nat) = 0 + 1 from rfl]
      rcases h₂ : att 2 with _ | r₂
      · rw [fetchWithRetryGo, h₂]
        rcases h₃ : att 3 with _ | r₃
        · rw [fetchWithRetryGo, h₃]
          simp [h₀, h₁, h₂, h₃]
        · rw [fetchWithRetryGo, h₃]
          simp [h₃]
      · rw [fetchWithRetryGo, h₂]
        simp [h₂]
    · rw [fetchWithRetryGo, h₁]
      simp [h₁]
  · rw [fetchWithRetryGo, h₀]
    simp [h₀]

theorem attemptsUsedGo_le (att : Nat → AttemptOutcome) :
    ∀ (n : Nat), ∀ (s : Nat), attemptsUsedGo att n s ≤ n + 1 := by
  intro n
  induction n with
  | zero =>
      intro s
      rcases h : att s with _ | r <;> simp only [attemptsUsedGo, h] <;> omega
  | succ n ih =>
      intro s
      rcases h : att s with _ | r <;> simp only [attemptsUsedGo, h]
      · have := ih (s + 1)
        omega
      · omega

theorem attemptsUsedGo_all_exn {att : Nat → AttemptOutcome}
    (hexn : ∀ k, att k = .exnThrown) :
    ∀ (n : Nat), ∀ (s : Nat), attemptsUsedGo att n s = n + 1 := by
  intro n
  induction n with
  | zero => intro s; simp only [attemptsUsedGo, hexn s]
  | succ n ih =>
      intro s
      simp only [attemptsUsedGo, hexn s, ih (s + 1)]
      omega

theorem retryDelaysGo_get? {att : Nat → AttemptOutcome} {rnd : Nat → ℚ} :
    ∀ (n : Nat), ∀ {s i : Nat} {dMs : ℚ},
      (retryDelaysGo att rnd n s).get? i = some dMs →
        dMs = backoffDelayMs (s + i) (rnd (s + i)) := by
  intro n
  induction n with
  | zero =>
      intro s i dMs h
      rw [retryDelaysGo] at h
      exact absurd h (by simp)
  | succ n ih =>
      intro s i dMs h
      rcases ha : att s with _ | r <;> rw [retryDelaysGo, ha] at h
      · rcases i with _ | i'
        · simp only [List.get?] at h
          rcases h with ⟨⟩
          rfl
        · simp only [List.get?] at h
          rw [ih h]
          have heq : s + 1 + i' = s + (i' + 1) := by omega
          rw [heq]
      · exact absurd h (by simp)

theorem find?_append_none {α : Type} {p : α → Bool} :
    ∀ {l₁ : List α} (l₂ : List α), l₁.find? p = none →
      (l₁ ++ l₂).find? p = l₂.find? p
  | [], l₂, _ => rfl
  | a :: t, l₂, h => by
      rcases hp : p a with _ | _
      · rw [List.find?_cons_of_neg _ (by simp [hp])] at h
        rw [List.cons_append, List.find?_cons_of_neg _ (by simp [hp])]
        exact find?_append_none l₂ h
      · rw [List.find?_cons_of_pos _ hp] at h
        exact absurd h (by simp)

/-- When every returned batch has at most 30 rows and both effective data
indices are at least 30, the hall's statuses are `Booked`/`Booked` on every
path. -/
theorem hallStatuses_booked_of_overflow {oracle : FetchOracle}
    {sheetName : String} {day : Nat} {hall : HallConfig}
    (hbound : ∀ u k r, oracle u k = .resp r →
      ∀ vs, r.values = some vs → vs.length ≤ 30)
    (hidx : 30 ≤ (day - 1) + hall.morningHeaderOffset)
    (hidx' : 30 ≤ (day - 1) + hall.eveningHeaderOffset) :
    hallStatuses oracle sheetName day hall = (.Booked, .Booked) := by
  unfold hallStatuses
  rcases hm : fetchWithRetry (oracle (rangeExpr sheetName hall.morningRange)) 0
    with _ | mresp
  · rfl
  · rcases he : fetchWithRetry (oracle (rangeExpr sheetName hall.eveningRange)) 0
      with _ | eresp
    · rfl
    · dsimp only
      by_cases hok : (mresp.isOk && eresp.isOk) = true
      · rw [if_pos hok]
        obtain ⟨k, hk⟩ := fetchWithRetry_ok_exists hm
        obtain ⟨k', hk'⟩ := fetchWithRetry_ok_exists he
        have h₁ : extractCell mresp.values ((day - 1) + hall.morningHeaderOffset)
            = none := by
          rcases hv : mresp.values with _ | vs
          · rfl
          · have hlen := hbound _ _ _ hk vs hv
            have hg : vs.get? ((day - 1) + hall.morningHeaderOffset) = none :=
              List.get?_eq_none.mpr (le_trans hlen hidx)
            unfold extractCell
            dsimp only
            rw [hg]
        have h₂ : extractCell eresp.values ((day - 1) + hall.eveningHeaderOffset)
            = none := by
          rcases hv : eresp.values with _ | vs
          · rfl
          · have hlen := hbound _ _ _ hk' vs hv
            have hg : vs.get? ((day - 1) + hall.eveningHeaderOffset) = none :=
              List.get?_eq_none.mpr (le_trans hlen hidx')
            unfold extractCell
            dsimp only
            rw [hg]
        rw [h₁, h₂]
        rfl
      · rw [if_neg hok]

theorem addFallback_of_find?_none {l : List HallData} {loc name dateStr : String}
    {slot : TimeSlot}
    (h : l.find? (fun r =>
        r.location == loc && r.hallName == name
          && r.timeSlot == slot && r.date == dateStr) = none) :
    addFallbackIfNeeded loc name dateStr slot l
      = l ++ [mkRecord dateStr loc name slot .Booked] := by
  unfold addFallbackIfNeeded
  rw [h]

theorem addFallback_of_find?_some {l : List HallData} {loc name dateStr : String}
    {slot : TimeSlot} {r : HallData}
    (h : l.find? (fun r =>
        r.location == loc && r.hallName == name
          && r.timeSlot == slot && r.date == dateStr) = some r) :
    addFallbackIfNeeded loc name dateStr slot l = l := by
  unfold addFallbackIfNeeded
  rw [h]

theorem fallbackRecord_pred (loc name dateStr : String) (slot : TimeSlot) :
    (fun r : HallData =>
      r.location == loc && r.hallName == name
        && r.timeSlot == slot && r.date == dateStr)
      (mkRecord dateStr loc name slot .Booked) = true := by
  simp [mkRecord]

/-! ## The claims -/

/-- C1: the cell value interpreter (`processSlot`), after trimming and
lowercasing its input, returns `Available` for the empty string and for
every recognized vacancy synonym (`vac`, `vacc`, `vacant`), returns
`Booked` for every recognized occupied synonym (`occ`, `occupied`), and
returns `Booked` for `undefined` input and for any other unrecognized
string. -/
theorem claim_C1 :
    processSlot none = Status.Booked
    ∧ (∀ v : String,
        (jsToLower (jsTrim v) = "vac" ∨ jsToLower (jsTrim v) = "vacc"
          ∨ jsToLower (jsTrim v) = "vacant" ∨ jsToLower (jsTrim v) = "") →
        processSlot (some v) = Status.Available)
    ∧ (∀ v : String,
        (jsToLower (jsTrim v) = "occ" ∨ jsToLower (jsTrim v) = "occupied") →
        processSlot (some v) = Status.Booked)
    ∧ (∀ v : String,
        ¬(jsToLower (jsTrim v) = "vac" ∨ jsToLower (jsTrim v) = "vacc"
          ∨ jsToLower (jsTrim v) = "vacant" ∨ jsToLower (jsTrim v) = "") →
        processSlot (some v) = Status.Booked) := by
  refine ⟨rfl, ?_, ?_, ?_⟩
  · intro v h
    unfold processSlot
    dsimp only
    rw [if_pos h]
  · intro v h
    rcases h with h | h <;> simp [processSlot, h]
  · intro v h
    unfold processSlot
    dsimp only
    rw [if_neg h]
    exact ite_self Status.Booked

theorem claim_C1_witness :
    (jsToLower (jsTrim "  VAC ") = "vac" ∨ jsToLower (jsTrim "  VAC ") = "vacc"
      ∨ jsToLower (jsTrim "  VAC ") = "vacant" ∨ jsToLower (jsTrim "  VAC ") = "")
    ∧ processSlot (some "  VAC ") = Status.Available :=
  ⟨by decide, claim_C1.2.1 "  VAC " (by decide)⟩

/-- C2 counterexample: February 29 of year 0 is a day valid for its month
(year 0 is leap, so February has 29 calendar days), yet the program returns
the empty list — 0 records, not `2 * totalConfiguredHalls` — because the
`new Date(year, monthIndex + 1, 0)` month-length computation remaps year 0
to 1900 and measures a 28-day February. -/
theorem claim_C2_counterexample :
    1 ≤ feb29Year0.day
    ∧ feb29Year0.day ≤ calendarDaysInMonth feb29Year0.year feb29Year0.month0
    ∧ fetchHallData witnessOracle feb29Year0 = []
    ∧ (fetchHallData witnessOracle feb29Year0).length ≠ 2 * totalConfiguredHalls := by
  refine ⟨by decide, by decide, by decide, by decide⟩

/-- C2 amended: for every date whose day-of-month is within the month
length the code computes — the calendar length of the date's month, except
that dates with year 0–99 get the length of the month in year 1900+y, by
the `Date` constructor's two-digit-year remap — `fetchHallData` returns
exactly `2 * totalConfiguredHalls` records, exactly one Morning and one
Evening record for each configured (location, hallName) pair, with no
duplicate (location, hallName, timeSlot) key, regardless of which fetches
succeed or fail (the oracle is arbitrary). -/
theorem claim_C2 (oracle : FetchOracle) (d : SimpleDate)
    (h₁ : 1 ≤ d.day) (h₂ : d.day ≤ daysInMonth d.year d.month0) :
    (fetchHallData oracle d).length = 2 * totalConfiguredHalls
    ∧ ((fetchHallData oracle d).map recKey).Nodup
    ∧ (∀ lc ∈ LOCATIONS, ∀ h ∈ lc.2.halls,
        ((fetchHallData oracle d).map recKey).count
            (lc.1, h.name, TimeSlot.Morning) = 1
        ∧ ((fetchHallData oracle d).map recKey).count
            (lc.1, h.name, TimeSlot.Evening) = 1) := by
  have hmap := map_recKey_fetchHallData oracle h₁ h₂
  have hlen : (fetchHallData oracle d).length = sortedBaseKeys.length := by
    rw [← hmap, List.length_map]
  refine ⟨?_, ?_, ?_⟩
  · rw [hlen]; decide
  · rw [hmap]; decide
  · rw [hmap]; decide

theorem claim_C2_witness :
    1 ≤ witnessDate.day
    ∧ witnessDate.day ≤ daysInMonth witnessDate.year witnessDate.month0
    ∧ ((fetchHallData witnessOracle witnessDate).length = 2 * totalConfiguredHalls
        ∧ ((fetchHallData witnessOracle witnessDate).map recKey).Nodup
        ∧ (∀ lc ∈ LOCATIONS, ∀ h ∈ lc.2.halls,
            ((fetchHallData witnessOracle witnessDate).map recKey).count
                (lc.1, h.name, TimeSlot.Morning) = 1
            ∧ ((fetchHallData witnessOracle witnessDate).map recKey).count
                (lc.1, h.name, TimeSlot.Evening) = 1)) :=
  ⟨by decide, by decide,
    claim_C2 witnessOracle witnessDate (by decide) (by decide)⟩

/-- C3 counterexample: the program returns the empty list for February 29
of year 0, a date whose day-of-month is valid for its month (29 calendar
days), refuting the claimed "empty iff out of range for its month": the
code's guard compares against the remapped Feb-1900 length of 28 days. -/
theorem claim_C3_counterexample :
    1 ≤ feb29Year0.day
    ∧ feb29Year0.day ≤ calendarDaysInMonth feb29Year0.year feb29Year0.month0
    ∧ fetchHallData witnessOracle feb29Year0 = [] := by
  refine ⟨by decide, by decide, by decide⟩

/-- C3 amended: `fetchHallData` returns the empty list if and only if the
requested day-of-month falls outside the month length the code computes
(the calendar length of the date's month, except that years 0–99 are
remapped to 1900+y by the `Date` constructor); inside that window the
result is non-empty, whatever the remote store does. -/
theorem claim_C3 (oracle : FetchOracle) (d : SimpleDate) :
    fetchHallData oracle d = []
      ↔ (d.day < 1 ∨ d.day > daysInMonth d.year d.month0) := by
  constructor
  · intro h
    by_contra hc
    push_neg at hc
    have hmap := map_recKey_fetchHallData oracle hc.1 hc.2
    rw [h] at hmap
    exact absurd hmap (by decide)
  · intro h
    unfold fetchHallData
    rw [if_pos h]

/-- C4 counterexample: a remote store answering HTTP 500 on every attempt.
`fetchWithRetry` returns the 500 response from the very first attempt — one
attempt total, no retries, and no error after a retry budget — contradicting
the claim that a non-2xx response is retried like an exception and that the
fetch then fails with an error. -/
theorem claim_C4_counterexample :
    fetchWithRetry oracle500attempts 0 = .ok { status := 500, values := none }
    ∧ attemptsUsed oracle500attempts 0 = 1
    ∧ fetchWithRetry oracle500attempts 0 ≠ .error () :=
  ⟨rfl, rfl, fun h => Except.noConfusion h⟩

/-- C4 amended: only thrown transport-level exceptions (including timeouts)
are retried.  Any settled HTTP response — 2xx or not — is returned by
`fetchWithRetry` from the first attempt at which it arrives, without
consuming retries; the retry budget is exhausted (and the fetch fails with
the rethrown last exception) exactly when all four attempts throw.  A
non-2xx response then fails the hall's processing once, degrading both of
the hall's slots to `Booked`. -/
theorem claim_C4_amended :
    (∀ (att : Nat → AttemptOutcome) (r : HttpResponse), att 0 = .resp r →
        fetchWithRetry att 0 = .ok r ∧ attemptsUsed att 0 = 1)
    ∧ (∀ att : Nat → AttemptOutcome,
        fetchWithRetry att 0 = .error () ↔
          att 0 = .exnThrown ∧ att 1 = .exnThrown
            ∧ att 2 = .exnThrown ∧ att 3 = .exnThrown)
    ∧ (∀ (oracle : FetchOracle) (sheetName : String) (day : Nat)
          (hall : HallConfig) (mresp : HttpResponse),
        fetchWithRetry (oracle (rangeExpr sheetName hall.morningRange)) 0 = .ok mresp →
        mresp.isOk = false →
        hallStatuses oracle sheetName day hall = (.Booked, .Booked)) := by
  refine ⟨fun att r h => fetchWithRetry_of_resp0 h, fetchWithRetry_error_iff, ?_⟩
  intro oracle sheetName day hall mresp hfetch hnotok
  unfold hallStatuses
  rw [hfetch]
  rcases he : fetchWithRetry (oracle (rangeExpr sheetName hall.eveningRange)) 0
    with _ | eresp
  · rfl
  · dsimp only
    rw [if_neg (by simp [hnotok])]

theorem claim_C4_amended_witness :
    oracle500attempts 0 = .resp { status := 500, values := none }
    ∧ (fetchWithRetry oracle500attempts 0 = .ok { status := 500, values := none }
        ∧ attemptsUsed oracle500attempts 0 = 1) :=
  ⟨by decide,
    claim_C4_amended.1 oracle500attempts { status := 500, values := none } (by decide)⟩

/-- C5 counterexample: for hall Aster of Tathawade, the morning fetch and
the evening fetch can never be in flight together — the code awaits the
morning `fetchWithRetry` to completion before starting the evening one —
contradicting the claim that the two range fetches of a hall are issued
concurrently. -/
theorem claim_C5_counterexample :
    mayOverlap aggregatorShape "GMK Banquets Tathawade" "Aster" TimeSlot.Morning
      "GMK Banquets Tathawade" "Aster" TimeSlot.Evening = false := by decide

/-- C5 amended: within one hall the morning and evening fetches are
sequential (the evening fetch starts only after the morning one settles),
and the halls of one location are resolved sequentially by the `for` loop;
only the two locations' resolutions run concurrently (`Promise.all` over
the location promises), and the aggregator waits for both to settle before
sorting and returning. -/
theorem claim_C5_amended :
    (∀ lc ∈ LOCATIONS, ∀ h ∈ lc.2.halls, ∀ s₁ s₂ : TimeSlot,
        mayOverlap aggregatorShape lc.1 h.name s₁ lc.1 h.name s₂ = false)
    ∧ (∀ lc ∈ LOCATIONS, ∀ h₁ ∈ lc.2.halls, ∀ h₂ ∈ lc.2.halls, ∀ s₁ s₂ : TimeSlot,
        mayOverlap aggregatorShape lc.1 h₁.name s₁ lc.1 h₂.name s₂ = false)
    ∧ (∀ h₁ ∈ tathawadeConfig.halls, ∀ h₂ ∈ ravetConfig.halls, ∀ s₁ s₂ : TimeSlot,
        mayOverlap aggregatorShape "GMK Banquets Tathawade" h₁.name s₁
          "GMK Banquets Ravet" h₂.name s₂ = true) := by
  refine ⟨by decide, by decide, by decide⟩

theorem claim_C5_amended_witness :
    ("GMK Banquets Tathawade", tathawadeConfig) ∈ LOCATIONS
    ∧ ({ name := "Aster", morningRange := "B4:B33", eveningRange := "C4:C33"
         morningHeaderOffset := 0, eveningHeaderOffset := 0 } : HallConfig)
        ∈ tathawadeConfig.halls
    ∧ mayOverlap aggregatorShape "GMK Banquets Tathawade" "Aster" TimeSlot.Morning
        "GMK Banquets Tathawade" "Aster" TimeSlot.Evening = false :=
  ⟨by decide, by decide,
    claim_C5_amended.1 ("GMK Banquets Tathawade", tathawadeConfig) (by decide)
      { name := "Aster", morningRange := "B4:B33", eveningRange := "C4:C33"
        morningHeaderOffset := 0, eveningHeaderOffset := 0 } (by decide)
      TimeSlot.Morning TimeSlot.Evening⟩

/-- C6: for every in-month date (and any remote behaviour), the list
returned by `fetchHallData` is sorted by location lexicographically, then
by hall name lexicographically within a location, then by time slot, with
each Morning record immediately preceding its paired Evening record for
the same hall. -/
theorem claim_C6 (oracle : FetchOracle) (d : SimpleDate)
    (h₁ : 1 ≤ d.day) (h₂ : d.day ≤ daysInMonth d.year d.month0) :
    List.Pairwise claimKeyLt ((fetchHallData oracle d).map recKey)
    ∧ pairedAdjacent ((fetchHallData oracle d).map recKey) = true := by
  rw [map_recKey_fetchHallData oracle h₁ h₂]
  exact ⟨by decide, by decide⟩

theorem claim_C6_witness :
    1 ≤ witnessDate.day
    ∧ witnessDate.day ≤ daysInMonth witnessDate.year witnessDate.month0
    ∧ (List.Pairwise claimKeyLt
          ((fetchHallData witnessOracle witnessDate).map recKey)
        ∧ pairedAdjacent ((fetchHallData witnessOracle witnessDate).map recKey)
            = true) :=
  ⟨by decide, by decide,
    claim_C6 witnessOracle witnessDate (by decide) (by decide)⟩

/-- C7: each range fetch attempt carries the 15-second timeout constant, at
most 3 retries beyond the first attempt (4 attempts total) are made — with
the budget fully used when every attempt throws — and the delay slept
before retry attempt `k` (counting from 0) equals
`min(2000 · 2^k, 10000)` ms plus a random jitter `rnd(k) · 1000` that is
strictly less than 1000 ms. -/
theorem claim_C7 :
    fetchTimeoutMs = 15000
    ∧ maxRetries = 3
    ∧ (∀ att : Nat → AttemptOutcome, attemptsUsed att 0 ≤ maxRetries + 1)
    ∧ (∀ att : Nat → AttemptOutcome, (∀ k, att k = .exnThrown) →
        attemptsUsed att 0 = maxRetries + 1)
    ∧ (∀ (att : Nat → AttemptOutcome) (rnd : Nat → ℚ) (i : Nat) (dMs : ℚ),
        (retryDelays att rnd 0).get? i = some dMs →
        dMs = min (2000 * 2 ^ i) 10000 + rnd i * 1000)
    ∧ (∀ (rndDraw : ℚ), 0 ≤ rndDraw → rndDraw < 1 →
        0 ≤ rndDraw * 1000 ∧ rndDraw * 1000 < 1000) := by
  refine ⟨rfl, rfl, fun att => attemptsUsedGo_le att _ 0,
    fun att h => attemptsUsedGo_all_exn h _ 0, ?_, ?_⟩
  · intro att rnd i dMs h
    have hd := retryDelaysGo_get? (maxRetries - 0) h
    rw [hd]
    simp [backoffDelayMs]
  · intro rndDraw h₀ h₁
    constructor
    · exact mul_nonneg h₀ (by norm_num)
    · nlinarith

theorem claim_C7_witness :
    (∀ k, exnAttempts k = AttemptOutcome.exnThrown)
    ∧ attemptsUsed exnAttempts 0 = maxRetries + 1 :=
  ⟨fun _ => rfl, claim_C7.2.2.2.1 exnAttempts (fun _ => rfl)⟩

/-- C8: the hall-failure fallback (`addFallbackIfNeeded`) is total (it only
ever returns the input list or the input list with one appended `Booked`
record), after running it for a slot that slot always has a record, a slot
whose record already exists keeps it (no fallback is added for it, only for
the missing slot), and the step is idempotent. -/
theorem claim_C8 (loc name dateStr : String) (l : List HallData) :
    (∀ slot : TimeSlot,
        addFallbackIfNeeded loc name dateStr slot l = l
          ∨ addFallbackIfNeeded loc name dateStr slot l
              = l ++ [mkRecord dateStr loc name slot .Booked])
    ∧ (∀ slot : TimeSlot,
        ∃ r ∈ addFallbackIfNeeded loc name dateStr slot l,
          r.location = loc ∧ r.hallName = name ∧ r.timeSlot = slot
            ∧ r.date = dateStr)
    ∧ (∀ slot : TimeSlot,
        (∃ r ∈ l, r.location = loc ∧ r.hallName = name ∧ r.timeSlot = slot
            ∧ r.date = dateStr) →
        addFallbackIfNeeded loc name dateStr slot l = l)
    ∧ (∀ slot : TimeSlot,
        addFallbackIfNeeded loc name dateStr slot
            (addFallbackIfNeeded loc name dateStr slot l)
          = addFallbackIfNeeded loc name dateStr slot l) := by
  refine ⟨?_, ?_, ?_, ?_⟩
  · intro slot
    rcases hf : l.find? (fun r =>
        r.location == loc && r.hallName == name
          && r.timeSlot == slot && r.date == dateStr) with _ | r
    · exact Or.inr (addFallback_of_find?_none hf)
    · exact Or.inl (addFallback_of_find?_some hf)
  · intro slot
    rcases hf : l.find? (fun r =>
        r.location == loc && r.hallName == name
          && r.timeSlot == slot && r.date == dateStr) with _ | r
    · rw [addFallback_of_find?_none hf]
      exact ⟨mkRecord dateStr loc name slot .Booked,
        List.mem_append_right _ (List.mem_singleton.mpr rfl), rfl, rfl, rfl, rfl⟩
    · have hr := List.mem_of_find?_eq_some hf
      have hp := List.find?_some hf
      simp only [Bool.and_eq_true, beq_iff_eq] at hp
      rw [addFallback_of_find?_some hf]
      exact ⟨r, hr, hp.1.1.1, hp.1.1.2, hp.1.2, hp.2⟩
  · intro slot hex
    rcases hex with ⟨r, hr, hc₁, hc₂, hc₃, hc₄⟩
    rcases hf : l.find? (fun r =>
        r.location == loc && r.hallName == name
          && r.timeSlot == slot && r.date == dateStr) with _ | r'
    · exfalso
      apply List.find?_eq_none.mp hf r hr
      simp only [Bool.and_eq_true, beq_iff_eq]
      exact ⟨⟨⟨hc₁, hc₂⟩, hc₃⟩, hc₄⟩
    · exact addFallback_of_find?_some hf
  · intro slot
    rcases hf : l.find? (fun r =>
        r.location == loc && r.hallName == name
          && r.timeSlot == slot && r.date == dateStr) with _ | r
    · rw [addFallback_of_find?_none hf]
      have hsingle : ([mkRecord dateStr loc name slot Status.Booked].find? (fun r =>
            r.location == loc && r.hallName == name
              && r.timeSlot == slot && r.date == dateStr))
          = some (mkRecord dateStr loc name slot .Booked) :=
        List.find?_cons_of_pos _ (by simp [mkRecord])
      exact addFallback_of_find?_some (by rw [find?_append_none _ hf]; exact hsingle)
    · rw [addFallback_of_find?_some hf]
      exact addFallback_of_find?_some hf

theorem claim_C8_witness :
    (∃ r ∈ [mkRecord "2025-05-18" "GMK Banquets Tathawade" "Aster"
        TimeSlot.Morning Status.Available],
      r.location = "GMK Banquets Tathawade" ∧ r.hallName = "Aster"
        ∧ r.timeSlot = TimeSlot.Morning ∧ r.date = "2025-05-18")
    ∧ addFallbackIfNeeded "GMK Banquets Tathawade" "Aster" "2025-05-18"
          TimeSlot.Morning
          [mkRecord "2025-05-18" "GMK Banquets Tathawade" "Aster"
            TimeSlot.Morning Status.Available]
        = [mkRecord "2025-05-18" "GMK Banquets Tathawade" "Aster"
            TimeSlot.Morning Status.Available] :=
  ⟨by decide,
    (claim_C8 "GMK Banquets Tathawade" "Aster" "2025-05-18"
        [mkRecord "2025-05-18" "GMK Banquets Tathawade" "Aster"
          TimeSlot.Morning Status.Available]).2.2.1
      TimeSlot.Morning (by decide)⟩

/-- C9: for a fixed date and fixed remote responses, the returned list does
not depend on the completion order in which the two locations' records
reach the shared result array (and the random backoff jitter never enters
the result): every completion schedule yields exactly `fetchHallData`'s
list. -/
theorem claim_C9 (oracle : FetchOracle) (d : SimpleDate)
    (h₁ : 1 ≤ d.day) (h₂ : d.day ≤ daysInMonth d.year d.month0)
    (sched : List Bool) :
    jsSort (interleaveBy sched
        (locationRecords oracle d ("GMK Banquets Tathawade", tathawadeConfig))
        (locationRecords oracle d ("GMK Banquets Ravet", ravetConfig)))
      = fetchHallData oracle d := by
  rw [fetchHallData_eq_of_valid h₁ h₂]
  exact jsSort_eq_of_perm (interleaveBy_perm sched _ _)
    (by rw [map_recKey_allRecords]; exact baseKeys_nodup)

theorem claim_C9_witness :
    1 ≤ witnessDate.day
    ∧ witnessDate.day ≤ daysInMonth witnessDate.year witnessDate.month0
    ∧ jsSort (interleaveBy [true, false, true]
          (locationRecords witnessOracle witnessDate
            ("GMK Banquets Tathawade", tathawadeConfig))
          (locationRecords witnessOracle witnessDate
            ("GMK Banquets Ravet", ravetConfig)))
        = fetchHallData witnessOracle witnessDate :=
  ⟨by decide, by decide,
    claim_C9 witnessOracle witnessDate (by decide) (by decide) [true, false, true]⟩

/-- C10: for day 31 of a 31-day month, with every configured header offset
equal to 0, the computed row index is `(31 - 1) + 0 = 30`, which lies
outside any returned batch of at most 30 rows; the out-of-bounds access is
total (`undefined` is passed to the interpreter), so both slots of every
hall are reported `Booked` regardless of the actual sheet content. -/
theorem claim_C10 (oracle : FetchOracle) (d : SimpleDate)
    (hday : d.day = 31) (hdim : daysInMonth d.year d.month0 = 31)
    (hbound : ∀ u k r, oracle u k = .resp r →
      ∀ vs, r.values = some vs → vs.length ≤ 30) :
    (∀ lc ∈ LOCATIONS, ∀ h ∈ lc.2.halls,
        h.morningHeaderOffset = 0 ∧ h.eveningHeaderOffset = 0
          ∧ (d.day - 1) + h.morningHeaderOffset = 30
          ∧ (d.day - 1) + h.eveningHeaderOffset = 30)
    ∧ (∀ r ∈ fetchHallData oracle d, r.status = Status.Booked) := by
  constructor
  · rw [hday]; decide
  · intro r hr
    have h₁ : 1 ≤ d.day := by omega
    have h₂ : d.day ≤ daysInMonth d.year d.month0 := by omega
    rw [fetchHallData_eq_of_valid h₁ h₂] at hr
    have hr' : r ∈ allRecords oracle d :=
      (List.perm_insertionSort recLe (allRecords oracle d)).mem_iff.mp hr
    have hstat : ∀ {loc : String} {halls : List HallConfig},
        r ∈ hallRecords oracle (sheetNameOf d) (formatDate d) loc d.day halls →
        r.status = Status.Booked := by
      intro loc halls hm
      obtain ⟨-, -, h, -, -, hst⟩ := mem_hallRecords hm
      have hb := @hallStatuses_booked_of_overflow oracle (sheetNameOf d) d.day h
        hbound (by omega) (by omega)
      rcases hst with hst | hst <;> rw [hst, hb]
    rcases List.mem_append.mp hr' with hm | hm
    · exact hstat hm
    · exact hstat hm

theorem claim_C10_witness :
    day31Date.day = 31
    ∧ daysInMonth day31Date.year day31Date.month0 = 31
    ∧ (∀ u k r, witnessOracle u k = .resp r →
        ∀ vs, r.values = some vs → vs.length ≤ 30)
    ∧ (∀ r ∈ fetchHallData witnessOracle day31Date,
        r.status = Status.Booked) := by
  have hb : ∀ u k r, witnessOracle u k = .resp r →
      ∀ vs, r.values = some vs → vs.length ≤ 30 := by
    intro u k r h vs hv
    cases h
    cases hv
    decide
  exact ⟨rfl, by decide, hb,
    (claim_C10 witnessOracle day31Date rfl (by decide) hb).2⟩

end HallGMK
